import Mathlib

/-!
Shallow embedding of `pkg/nuclide-navigation-stack/lib/NavigationStack.js`.

The JavaScript class `NavigationStack` keeps

  * `_elements : Array<Location>` — the history entries,
  * `_index : number`              — the cursor (−1 on a fresh, empty stack),
  * `_changes : Subject<NavigationStack>` — the rx change channel.

Here the state is a Lean structure; the rx subject is modelled by a counter
`changes` of how many notifications have been published (`_hasChanged()` in the
source increments it).  Atom editor handles are opaque objects with reference
identity and a `getPath()` that may return null; they are modelled by a
structure carrying an identity tag and an optional path, compared by
(decidable) structural equality, which plays the role of JavaScript reference
equality.  Buffer positions are opaque stored values, modelled as row/column
pairs.  In-place array mutation in the source becomes functional update here.
-/

structure Position where
  row : Nat
  column : Nat
deriving DecidableEq, Repr

/-- An `atom$TextEditor` handle: opaque identity plus `getPath()`
(`none` models a null path, i.e. a never-saved editor). -/
structure Editor where
  id : Nat
  path : Option String
deriving DecidableEq, Repr

/-- `Location` from `./Location`: a tagged union of
`\x7btype: 'editor', editor, bufferPosition\x7d` and
`\x7btype: 'uri', uri, bufferPosition\x7d`. -/
inductive Location where
  | editor (editor : Editor) (bufferPosition : Position)
  | uri (uri : String) (bufferPosition : Position)
deriving DecidableEq, Repr

/-- `EditorLocation`: the `type: 'editor'` records that `push` and
`attemptUpdate` receive. -/
structure EditorLocation where
  editor : Editor
  bufferPosition : Position
deriving DecidableEq, Repr

def EditorLocation.toLocation (e : EditorLocation) : Location :=
  Location.editor e.editor e.bufferPosition

/-- Replace the `bufferPosition` field of either variant
(models `current.bufferPosition = newTop.bufferPosition`). -/
def Location.withPosition : Location → Position → Location
  | Location.editor e _, p => Location.editor e p
  | Location.uri u _, p => Location.uri u p

/-- `const MAX_STACK_DEPTH = 100;` -/
def MAX_STACK_DEPTH : Nat := 100

/-- The mutable state of a `NavigationStack`, plus `changes`, the number of
notifications published so far on the `_changes` subject. -/
structure NavigationStack where
  elements : List Location
  index : Int
  changes : Nat
deriving DecidableEq, Repr

namespace NavigationStack

/-- `constructor()`: `this._elements = []; this._index = -1;`. -/
def empty : NavigationStack :=
  { elements := [], index := -1, changes := 0 }

/-- `_hasChanged(): this._changes.next(this)` — one more notification goes out. -/
def hasChanged (s : NavigationStack) : NavigationStack :=
  { s with changes := s.changes + 1 }

/-- `isEmpty(): return this._elements.length === 0;` -/
def isEmpty (s : NavigationStack) : Bool :=
  s.elements.length == 0

/-- `hasCurrent(): return !this.isEmpty();` -/
def hasCurrent (s : NavigationStack) : Bool :=
  !s.isEmpty

/-- `getCurrent()`: asserts `0 <= _index < _elements.length` and returns
`_elements[_index]`; the assertion failure is modelled as `none`. -/
def getCurrent (s : NavigationStack) : Option Location :=
  if 0 ≤ s.index ∧ s.index < (s.elements.length : Int) then
    s.elements.get? s.index.toNat
  else
    none

/-- `getCurrentEditor()`: `null` when empty, the live handle when the current
entry has `type === 'editor'`, `null` otherwise. -/
def getCurrentEditor (s : NavigationStack) : Option Editor :=
  if s.hasCurrent then
    match s.getCurrent with
    | some (Location.editor e _) => some e
    | _ => none
  else
    none

/-- `push(newTop)`: `splice(this._index + 1)` keeps the first `_index + 1`
elements, `newTop` is appended, `splice(0, 1)` evicts the oldest element when
the depth bound is exceeded, the cursor moves to the new top and a change
notification is emitted. -/
def push (s : NavigationStack) (newTop : EditorLocation) : NavigationStack :=
  let kept := s.elements.take (s.index + 1).toNat ++ [newTop.toLocation]
  let kept := if kept.length > MAX_STACK_DEPTH then kept.drop 1 else kept
  hasChanged { s with elements := kept, index := (kept.length : Int) - 1 }

/-- Functional rendering of `this._elements[n].bufferPosition = p` for the
element at index `n` (all other elements untouched). -/
def setPositionAt : List Location → Nat → Position → List Location
  | [], _, _ => []
  | l :: rest, 0, p => l.withPosition p :: rest
  | l :: rest, n + 1, p => l :: setPositionAt rest n p

/-- `attemptUpdate(newTop)`: when `getCurrentEditor() === newTop.editor` the
current entry's buffer position is overwritten in place (no notification),
otherwise the call delegates to `push`. -/
def attemptUpdate (s : NavigationStack) (newTop : EditorLocation) : NavigationStack :=
  if s.getCurrentEditor = some newTop.editor then
    { s with elements := setPositionAt s.elements s.index.toNat newTop.bufferPosition }
  else
    s.push newTop

/-- `hasNext(): return this._index + 1 < this._elements.length;` -/
def hasNext (s : NavigationStack) : Bool :=
  decide (s.index + 1 < (s.elements.length : Int))

/-- `hasPrevious(): return this._index > 0;` -/
def hasPrevious (s : NavigationStack) : Bool :=
  decide (s.index > 0)

/-- `previous()`: on `hasPrevious()` decrement the cursor, return the new
current entry and notify; otherwise return `null` leaving the state alone. -/
def previous (s : NavigationStack) : Option Location × NavigationStack :=
  if s.hasPrevious then
    let s' := { s with index := s.index - 1 }
    (s'.getCurrent, hasChanged s')
  else
    (none, s)

/-- `next()`: on `hasNext()` increment the cursor, return the new current
entry and notify; otherwise return `null` leaving the state alone. -/
def next (s : NavigationStack) : Option Location × NavigationStack :=
  if s.hasNext then
    let s' := { s with index := s.index + 1 }
    (s'.getCurrent, hasChanged s')
  else
    (none, s)

/-- `editorOpened(editor)`: no-op when `editor.getPath()` is null, otherwise
every `type: 'uri'` entry whose uri equals the path is replaced in place by an
editor location with the same buffer position. -/
def editorOpened (s : NavigationStack) (editor : Editor) : NavigationStack :=
  match editor.path with
  | none => s
  | some uri =>
    { s with
      elements := s.elements.map fun l =>
        match l with
        | Location.uri u p => if u = uri then Location.editor editor p else Location.uri u p
        | l => l }

/-- A single step of `Array.prototype.filter` as written in `filter(predicate)`:
walks the elements carrying the original element index `idx`, the original
cursor `origIdx` (the source reads `this._index`, unchanged during the scan)
and the running `newIndex`, decrementing `newIndex` for every rejected element
whose original index is at most the original cursor.  Returns the kept
elements together with the final `newIndex`. -/
def filterStep (p : Location → Bool) :
    List Location → Nat → Int → Int → List Location × Int
  | [], _, _, newIndex => ([], newIndex)
  | l :: rest, idx, origIdx, newIndex =>
    let keep := p l
    let newIndex' := if ¬keep ∧ (idx : Int) ≤ origIdx then newIndex - 1 else newIndex
    let r := filterStep p rest (idx + 1) origIdx newIndex'
    (if keep then l :: r.1 else r.1, r.2)

/-- `filter(predicate)`: drops the entries failing the predicate, adjusts the
cursor by the scan above, clamps it with
`Math.min(Math.max(newIndex, 0), this._elements.length - 1)` against the new
length, and notifies exactly when the length changed. -/
def filter (s : NavigationStack) (p : Location → Bool) : NavigationStack :=
  let originalSize := s.elements.length
  let r := filterStep p s.elements 0 s.index s.index
  let s' := { s with
    elements := r.1,
    index := min (max r.2 0) ((r.1.length : Int) - 1) }
  if originalSize ≠ r.1.length then hasChanged s' else s'

/-- `editorClosed(editor)`: for a null or empty path the entries of that
editor are removed through `filter`; for a real path every entry of that
editor is downgraded in place to a uri location (no notification). -/
def editorClosed (s : NavigationStack) (editor : Editor) : NavigationStack :=
  match editor.path with
  | none =>
    s.filter fun l =>
      match l with
      | Location.editor e _ => decide (¬e = editor)
      | _ => true
  | some uri =>
    if uri = ("") then
      s.filter fun l =>
        match l with
        | Location.editor e _ => decide (¬e = editor)
        | _ => true
    else
      { s with
        elements := s.elements.map fun l =>
          match l with
          | Location.editor e p => if e = editor then Location.uri uri p else Location.editor e p
          | l => l }

/-- The public mutating operations, for stating whole-trace invariants. -/
inductive Op where
  | push (e : EditorLocation)
  | attemptUpdate (e : EditorLocation)
  | previous
  | next
  | editorOpened (e : Editor)
  | editorClosed (e : Editor)
  | filter (p : Location → Bool)

def applyOp (s : NavigationStack) : Op → NavigationStack
  | Op.push e => s.push e
  | Op.attemptUpdate e => s.attemptUpdate e
  | Op.previous => (s.previous).2
  | Op.next => (s.next).2
  | Op.editorOpened e => s.editorOpened e
  | Op.editorClosed e => s.editorClosed e
  | Op.filter p => s.filter p

def applyOps (s : NavigationStack) (ops : List Op) : NavigationStack :=
  ops.foldl applyOp s

/-- The state invariant: the stack never exceeds `MAX_STACK_DEPTH`, the
cursor is the −1 sentinel exactly on the empty stack and a valid element
index otherwise. -/
def Inv (s : NavigationStack) : Prop :=
  s.elements.length ≤ MAX_STACK_DEPTH ∧
    (s.elements.length = 0 → s.index = -1) ∧
    (s.elements.length ≠ 0 → 0 ≤ s.index ∧ s.index < (s.elements.length : Int))

instance (s : NavigationStack) : Decidable (Inv s) := by
  unfold Inv; infer_instance

end NavigationStack

namespace NavigationStack

/-! ### Helper lemmas about the operations -/

theorem length_setPositionAt (l : List Location) (n : Nat) (p : Position) :
    (setPositionAt l n p).length = l.length := by
  induction l generalizing n with
  | nil => rfl
  | cons x rest ih =>
    cases n with
    | zero => simp [setPositionAt]
    | succ m => simp [setPositionAt, ih]

theorem get?_setPositionAt_self (l : List Location) (n : Nat) (p : Position) :
    (setPositionAt l n p).get? n = (l.get? n).map (fun x => x.withPosition p) := by
  induction l generalizing n with
  | nil => simp [setPositionAt]
  | cons x rest ih =>
    cases n with
    | zero => simp [setPositionAt]
    | succ m => simpa [setPositionAt] using ih m

theorem get?_setPositionAt_ne (l : List Location) (n : Nat) (p : Position)
    (i : Nat) (h : i ≠ n) : (setPositionAt l n p).get? i = l.get? i := by
  induction l generalizing n i with
  | nil => rfl
  | cons x rest ih =>
    cases n with
    | zero =>
      cases i with
      | zero => exact absurd rfl h
      | succ j => simp [setPositionAt]
    | succ m =>
      cases i with
      | zero => simp [setPositionAt]
      | succ j => simpa [setPositionAt] using ih m j (by omega)

theorem filterStep_fst (p : Location → Bool) (l : List Location) :
    ∀ (k : Nat) (o a : Int), (filterStep p l k o a).1 = l.filter p := by
  induction l with
  | nil => intro k o a; rfl
  | cons x rest ih =>
    intro k o a
    by_cases hx : p x <;>
      simp [filterStep, hx, List.filter_cons, ih]

theorem filterStep_snd (p : Location → Bool) (l : List Location) :
    ∀ (k : Nat) (o a : Int), (filterStep p l k o a).2
      = a - ((l.take (o - k + 1).toNat).filter (fun x => !p x)).length := by
  induction l with
  | nil => intro k o a; simp [filterStep]
  | cons x rest ih =>
    intro k o a
    by_cases hko : (k : Int) ≤ o
    · have hsucc : (o - k + 1).toNat = (o - (k + 1) + 1).toNat + 1 := by omega
      rw [filterStep, hsucc]
      by_cases hx : p x <;>
        simp [hx, hko, List.take_succ_cons, List.filter_cons, ih (k + 1) o] <;>
        omega
    · have h0 : (o - k + 1).toNat = 0 := by omega
      have h1 : (o - (k + 1) + 1).toNat = 0 := by omega
      rw [filterStep, h0]
      by_cases hx : p x <;>
        simp [hx, hko, ih (k + 1) o, h1]

/-- `filter` keeps exactly the entries passing the predicate. -/
theorem filter_elements (s : NavigationStack) (p : Location → Bool) :
    (s.filter p).elements = s.elements.filter p := by
  simp only [filter]
  split <;> simp [hasChanged, filterStep_fst]

/-- The cursor after `filter`: the original cursor minus one per removed entry
at an original index at most the cursor, clamped against the new length. -/
theorem filter_index (s : NavigationStack) (p : Location → Bool) :
    (s.filter p).index
      = min (max (s.index
            - (((s.elements.take (s.index + 1).toNat).filter fun x => !p x)).length) 0)
          (((s.elements.filter p).length : Int) - 1) := by
  have hsnd := filterStep_snd p s.elements 0 s.index s.index
  have hfst := filterStep_fst p s.elements 0 s.index s.index
  simp only [Nat.cast_zero, sub_zero] at hsnd
  simp only [filter]
  split <;> simp only [hasChanged] <;> rw [hsnd, hfst]

/-- `filter` publishes a notification exactly when the length changed. -/
theorem filter_changes (s : NavigationStack) (p : Location → Bool) :
    (s.filter p).changes
      = if s.elements.length = (s.elements.filter p).length then s.changes
        else s.changes + 1 := by
  have hfst := filterStep_fst p s.elements 0 s.index s.index
  simp only [filter]
  split <;> rename_i hcond <;> rw [hfst] at hcond
  · rw [if_neg hcond]; rfl
  · rw [if_pos (not_ne_iff.mp hcond)]

/-- An emptied stack gets the −1 cursor sentinel back:
`Math.min(Math.max(newIndex, 0), -1) = -1`. -/
theorem filter_index_of_empty (s : NavigationStack) (p : Location → Bool)
    (h : (s.filter p).elements = []) : (s.filter p).index = -1 := by
  have hidx := filter_index s p
  have hlen : (s.elements.filter p).length = 0 := by
    rw [← filter_elements s p, h]; rfl
  rw [hidx, hlen]
  omega

end NavigationStack

namespace NavigationStack

/-! ### The state invariant is preserved by every operation -/

theorem inv_empty : Inv empty := by decide

theorem push_elements_eq (s : NavigationStack) (e : EditorLocation) :
    (s.push e).elements
      = (if (s.elements.take (s.index + 1).toNat ++ [e.toLocation]).length > MAX_STACK_DEPTH
         then (s.elements.take (s.index + 1).toNat ++ [e.toLocation]).drop 1
         else s.elements.take (s.index + 1).toNat ++ [e.toLocation]) := rfl

theorem push_index_eq (s : NavigationStack) (e : EditorLocation) :
    (s.push e).index = ((s.push e).elements.length : Int) - 1 := by
  simp only [push, hasChanged]

theorem push_length_le (s : NavigationStack) (e : EditorLocation)
    (h : s.elements.length ≤ MAX_STACK_DEPTH) :
    (s.push e).elements.length ≤ MAX_STACK_DEPTH := by
  have htake : (s.elements.take (s.index + 1).toNat).length ≤ s.elements.length := by
    rw [List.length_take]; omega
  rw [push_elements_eq]
  split <;> rename_i hc <;>
    simp only [List.length_drop, List.length_append, List.length_singleton] at * <;> omega

theorem push_length_pos (s : NavigationStack) (e : EditorLocation) :
    0 < (s.push e).elements.length := by
  rw [push_elements_eq]
  split <;> rename_i hc <;>
    simp only [List.length_drop, List.length_append, List.length_singleton,
      MAX_STACK_DEPTH] at * <;> omega

theorem inv_push (s : NavigationStack) (e : EditorLocation) (h : Inv s) :
    Inv (s.push e) := by
  obtain ⟨hlen, -, -⟩ := h
  have h1 := push_length_le s e hlen
  have h2 := push_length_pos s e
  have h3 := push_index_eq s e
  exact ⟨h1, fun h0 => by omega, fun _ => by omega⟩

theorem inv_attemptUpdate (s : NavigationStack) (e : EditorLocation) (h : Inv s) :
    Inv (s.attemptUpdate e) := by
  unfold attemptUpdate
  split
  · obtain ⟨hlen, hemp, hne⟩ := h
    exact ⟨by simpa [length_setPositionAt] using hlen,
      by simpa [length_setPositionAt] using hemp,
      by simpa [length_setPositionAt] using hne⟩
  · exact inv_push s e h

theorem inv_previous (s : NavigationStack) (h : Inv s) : Inv (s.previous).2 := by
  obtain ⟨hlen, hemp, hne⟩ := h
  unfold previous
  by_cases hp : s.hasPrevious
  · have hp' : 0 < s.index := by simpa [hasPrevious] using hp
    have hb : s.elements.length ≠ 0 := fun h0 => by
      rw [hemp h0] at hp'; omega
    obtain ⟨h1, h2⟩ := hne hb
    simp only [hp, if_true]
    unfold Inv hasChanged
    dsimp only
    exact ⟨hlen, fun h0 => absurd h0 hb, fun _ => by omega⟩
  · simp only [hp, if_false]
    exact ⟨hlen, hemp, hne⟩

theorem inv_next (s : NavigationStack) (h : Inv s) : Inv (s.next).2 := by
  obtain ⟨hlen, hemp, hne⟩ := h
  unfold next
  by_cases hp : s.hasNext
  · have hp' : s.index + 1 < (s.elements.length : Int) := by simpa [hasNext] using hp
    have hb : s.elements.length ≠ 0 := fun h0 => by
      rw [hemp h0, h0] at hp'
      exact absurd hp' (by omega)
    obtain ⟨h1, h2⟩ := hne hb
    simp only [hp, if_true]
    unfold Inv hasChanged
    dsimp only
    exact ⟨hlen, fun h0 => absurd h0 hb, fun _ => by omega⟩
  · simp only [hp, if_false]
    exact ⟨hlen, hemp, hne⟩

theorem inv_editorOpened (s : NavigationStack) (e : Editor) (h : Inv s) :
    Inv (s.editorOpened e) := by
  obtain ⟨hlen, hemp, hne⟩ := h
  unfold editorOpened
  cases e.path with
  | none => exact ⟨hlen, hemp, hne⟩
  | some uri =>
    exact ⟨by simpa using hlen, by simpa using hemp, by simpa using hne⟩

theorem inv_filter (s : NavigationStack) (p : Location → Bool) (h : Inv s) :
    Inv (s.filter p) := by
  obtain ⟨hlen, -, -⟩ := h
  have hel := filter_elements s p
  have hidx := filter_index s p
  have hlen' : (s.filter p).elements.length ≤ s.elements.length := by
    rw [hel]; exact List.length_filter_le p s.elements
  refine ⟨by omega, fun h0 => ?_, fun h0 => ?_⟩
  · rw [hidx]
    rw [hel] at h0
    rw [h0]
    omega
  · rw [hel] at h0 ⊢
    rw [hidx]
    omega

theorem inv_editorClosed (s : NavigationStack) (e : Editor) (h : Inv s) :
    Inv (s.editorClosed e) := by
  unfold editorClosed
  cases hp : e.path with
  | none => exact inv_filter s _ h
  | some uri =>
    by_cases hu : uri = ("")
    · simp only [hu, if_pos rfl]
      exact inv_filter s _ h
    · obtain ⟨hlen, hemp, hne⟩ := h
      simp only [if_neg hu]
      exact ⟨by simpa using hlen, by simpa using hemp, by simpa using hne⟩

theorem inv_applyOp (s : NavigationStack) (op : Op) (h : Inv s) :
    Inv (applyOp s op) := by
  cases op with
  | push e => exact inv_push s e h
  | attemptUpdate e => exact inv_attemptUpdate s e h
  | previous => exact inv_previous s h
  | next => exact inv_next s h
  | editorOpened e => exact inv_editorOpened s e h
  | editorClosed e => exact inv_editorClosed s e h
  | filter p => exact inv_filter s p h

theorem inv_applyOps (s : NavigationStack) (ops : List Op) (h : Inv s) :
    Inv (applyOps s ops) := by
  induction ops generalizing s with
  | nil => exact h
  | cons op rest ih => exact ih (applyOp s op) (inv_applyOp s op h)

end NavigationStack

namespace NavigationStack

/-! ### Concrete fixtures for scenarios, witnesses and counterexamples -/

def samplePos : Position := ⟨1, 0⟩

def sampleA : EditorLocation := ⟨⟨1, none⟩, ⟨1, 0⟩⟩

def sampleB : EditorLocation := ⟨⟨2, none⟩, ⟨2, 0⟩⟩

def sampleC : EditorLocation := ⟨⟨3, none⟩, ⟨3, 0⟩⟩

/-! ### The claims -/

/-- C1: for every sequence of operations applied to a freshly constructed
`NavigationStack`, `len(entries) ≤ 100` (`MAX_STACK_DEPTH`), and whenever
`entries` is non-empty, `0 ≤ cursor < len(entries)`. -/
theorem c1_stack_invariants (ops : List Op) :
    (applyOps empty ops).elements.length ≤ MAX_STACK_DEPTH ∧
      ((applyOps empty ops).elements ≠ [] →
        0 ≤ (applyOps empty ops).index ∧
          (applyOps empty ops).index < ((applyOps empty ops).elements.length : Int)) := by
  obtain ⟨h1, h2, h3⟩ := inv_applyOps empty ops inv_empty
  exact ⟨h1, fun hne => h3 fun h0 => hne (List.length_eq_zero.mp h0)⟩

theorem c1_stack_invariants_witness :
    (applyOps empty [Op.push sampleA]).elements ≠ [] ∧
      0 ≤ (applyOps empty [Op.push sampleA]).index ∧
        (applyOps empty [Op.push sampleA]).index
          < ((applyOps empty [Op.push sampleA]).elements.length : Int) :=
  ⟨by decide, (c1_stack_invariants [Op.push sampleA]).2 (by decide)⟩

/-- C10 (implicit): after every sequence of operations on a fresh stack the
cursor is −1 exactly when the stack is empty; in particular a `filter` that
removes all entries resets the cursor to −1, never 0, and a non-empty stack
never has cursor −1. -/
theorem c10_cursor_sentinel_iff_empty (ops : List Op) :
    ((applyOps empty ops).index = -1 ↔ (applyOps empty ops).elements = []) ∧
      (∀ p : Location → Bool, ((applyOps empty ops).filter p).elements = [] →
        ((applyOps empty ops).filter p).index = -1) := by
  obtain ⟨h1, h2, h3⟩ := inv_applyOps empty ops inv_empty
  refine ⟨⟨fun hidx => ?_, fun he => h2 (by simp [he])⟩,
    fun p hp => filter_index_of_empty _ p hp⟩
  by_contra hne
  have := h3 fun h0 => hne (List.length_eq_zero.mp h0)
  omega

theorem c10_cursor_sentinel_iff_empty_witness :
    (applyOps empty [Op.push sampleA, Op.filter fun _ => false]).elements = [] ∧
      (applyOps empty [Op.push sampleA, Op.filter fun _ => false]).index = -1 :=
  ⟨by decide,
    (c10_cursor_sentinel_iff_empty [Op.push sampleA, Op.filter fun _ => false]).1.mpr
      (by decide)⟩

/-- C8 as stated is false on the code: emptying a one-element stack through
`filter` leaves the cursor at −1 (because the clamp is
`Math.min(Math.max(newIndex, 0), -1)`), not at 0. -/
theorem c8_counterexample :
    ((⟨[sampleA.toLocation], 0, 0⟩ : NavigationStack).filter fun _ => false).elements = [] ∧
      ((⟨[sampleA.toLocation], 0, 0⟩ : NavigationStack).filter fun _ => false).index ≠ 0 := by
  decide

/-- C8 amended: when a `filter` removes every entry the resulting cursor index
is −1 — the `Math.min` with `length - 1 = -1` wins over the `Math.max(·, 0)` —
so the emptied state carries the same cursor-less sentinel as a fresh stack,
not index 0. -/
theorem c8_amended_empty_filter_cursor (s : NavigationStack) (p : Location → Bool)
    (h : (s.filter p).elements = []) :
    (s.filter p).index = -1 ∧ (s.filter p).index = empty.index :=
  ⟨filter_index_of_empty s p h, by rw [filter_index_of_empty s p h]; rfl⟩

theorem c8_amended_empty_filter_cursor_witness :
    ((⟨[sampleB.toLocation], 0, 4⟩ : NavigationStack).filter fun _ => false).elements = [] ∧
      ((⟨[sampleB.toLocation], 0, 4⟩ : NavigationStack).filter fun _ => false).index = -1 ∧
        ((⟨[sampleB.toLocation], 0, 4⟩ : NavigationStack).filter fun _ => false).index
          = empty.index :=
  ⟨by decide,
    c8_amended_empty_filter_cursor ⟨[sampleB.toLocation], 0, 4⟩ (fun _ => false) (by decide)⟩

end NavigationStack

namespace NavigationStack

/-- C4: `filter` removes exactly the entries failing the predicate, decrements
the cursor once per removed entry at an original index at most the original
cursor (removals after the cursor do not affect it), clamps the result into
valid range (−1 when the stack empties), and notifies iff the length
changed. -/
theorem c4_filter_semantics (s : NavigationStack) (p : Location → Bool) :
    (s.filter p).elements = s.elements.filter p ∧
      (s.filter p).index
        = min (max (s.index
              - (((s.elements.take (s.index + 1).toNat).filter fun x => !p x)).length) 0)
            (((s.elements.filter p).length : Int) - 1) ∧
      ((s.filter p).elements ≠ [] →
        0 ≤ (s.filter p).index ∧ (s.filter p).index < ((s.filter p).elements.length : Int)) ∧
      ((s.filter p).elements = [] → (s.filter p).index = -1) ∧
      (s.elements.length ≠ (s.filter p).elements.length →
        (s.filter p).changes = s.changes + 1) ∧
      (s.elements.length = (s.filter p).elements.length → (s.filter p).changes = s.changes) := by
  have hel := filter_elements s p
  have hidx := filter_index s p
  have hch := filter_changes s p
  refine ⟨hel, hidx, fun hne => ?_, fun he => filter_index_of_empty s p he,
    fun hne => ?_, fun he => ?_⟩
  · have hlen : (s.filter p).elements.length ≠ 0 := by
      simpa [List.length_eq_zero] using hne
    rw [hel] at hlen
    rw [hidx, hel]
    omega
  · rw [hel] at hne
    rw [hch, if_neg hne]
  · rw [hel] at he
    rw [hch, if_pos he]

theorem c4_filter_semantics_witness :
    ((⟨[sampleA.toLocation, sampleB.toLocation, sampleC.toLocation], 2, 0⟩ :
        NavigationStack).filter fun l => decide (l ≠ sampleA.toLocation)).elements ≠ [] ∧
      0 ≤ ((⟨[sampleA.toLocation, sampleB.toLocation, sampleC.toLocation], 2, 0⟩ :
        NavigationStack).filter fun l => decide (l ≠ sampleA.toLocation)).index :=
  ⟨by decide,
    ((c4_filter_semantics ⟨[sampleA.toLocation, sampleB.toLocation, sampleC.toLocation], 2, 0⟩
      (fun l => decide (l ≠ sampleA.toLocation))).2.2.1 (by decide)).1⟩

/-- C5: when the incoming entry's editor handle is identical to the current
entry's handle, `attemptUpdate` rewrites only the current entry's buffer
position, leaving length, cursor and notification count unchanged; with a
non-matching handle it is exactly `push`. -/
theorem c5_attemptUpdate_semantics (s : NavigationStack) (e : EditorLocation) :
    (s.getCurrentEditor = some e.editor →
      (s.attemptUpdate e).elements.length = s.elements.length ∧
        (s.attemptUpdate e).index = s.index ∧
        (s.attemptUpdate e).changes = s.changes ∧
        (s.attemptUpdate e).elements.get? s.index.toNat
          = (s.elements.get? s.index.toNat).map (fun l => l.withPosition e.bufferPosition) ∧
        (∀ i, i ≠ s.index.toNat → (s.attemptUpdate e).elements.get? i
          = s.elements.get? i)) ∧
    (s.getCurrentEditor ≠ some e.editor → s.attemptUpdate e = s.push e) := by
  constructor
  · intro hcur
    unfold attemptUpdate
    rw [if_pos hcur]
    exact ⟨length_setPositionAt s.elements s.index.toNat e.bufferPosition, rfl, rfl,
      get?_setPositionAt_self s.elements s.index.toNat e.bufferPosition,
      fun i hi => get?_setPositionAt_ne s.elements s.index.toNat e.bufferPosition i hi⟩
  · intro hcur
    unfold attemptUpdate
    rw [if_neg hcur]

theorem c5_attemptUpdate_semantics_witness :
    (⟨[sampleA.toLocation, sampleB.toLocation], 1, 0⟩ :
        NavigationStack).getCurrentEditor = some (⟨⟨2, none⟩, ⟨9, 9⟩⟩ : EditorLocation).editor ∧
      ((⟨[sampleA.toLocation, sampleB.toLocation], 1, 0⟩ :
        NavigationStack).attemptUpdate ⟨⟨2, none⟩, ⟨9, 9⟩⟩).elements.length
        = (⟨[sampleA.toLocation, sampleB.toLocation], 1, 0⟩ :
          NavigationStack).elements.length :=
  ⟨by decide,
    ((c5_attemptUpdate_semantics ⟨[sampleA.toLocation, sampleB.toLocation], 1, 0⟩
      ⟨⟨2, none⟩, ⟨9, 9⟩⟩).1 (by decide)).1⟩

/-- C6: `previous()` with `hasPrevious()` decrements the cursor, returns the
new current entry and notifies; otherwise it returns null leaving the state
untouched with no notification; `next()` is symmetric via `hasNext()`. -/
theorem c6_previous_next_semantics (s : NavigationStack) (h : Inv s) :
    (s.hasPrevious = true →
      (s.previous).2.elements = s.elements ∧
        (s.previous).2.index = s.index - 1 ∧
        (s.previous).2.changes = s.changes + 1 ∧
        (s.previous).1 = s.elements.get? (s.index - 1).toNat ∧
        ((s.previous).1).isSome = true) ∧
    (s.hasPrevious = false → s.previous = (none, s)) ∧
    (s.hasNext = true →
      (s.next).2.elements = s.elements ∧
        (s.next).2.index = s.index + 1 ∧
        (s.next).2.changes = s.changes + 1 ∧
        (s.next).1 = s.elements.get? (s.index + 1).toNat ∧
        ((s.next).1).isSome = true) ∧
    (s.hasNext = false → s.next = (none, s)) := by
  obtain ⟨hlen, hemp, hne⟩ := h
  refine ⟨fun hp => ?_, fun hp => ?_, fun hp => ?_, fun hp => ?_⟩
  · have hp' : 0 < s.index := by simpa [hasPrevious] using hp
    have hb : s.elements.length ≠ 0 := fun h0 => by rw [hemp h0] at hp'; omega
    obtain ⟨hi0, hi1⟩ := hne hb
    unfold previous
    rw [if_pos hp]
    dsimp only
    have hcond : (0:Int) ≤ s.index - 1 ∧ s.index - 1 < (s.elements.length : Int) := by
      constructor <;> omega
    have hget : ({ s with index := s.index - 1 } : NavigationStack).getCurrent
        = s.elements.get? (s.index - 1).toNat := by
      unfold getCurrent
      rw [if_pos hcond]
    have hlt : (s.index - 1).toNat < s.elements.length := by omega
    refine ⟨rfl, rfl, rfl, hget, ?_⟩
    rw [hget, List.get?_eq_get hlt]
    rfl
  · unfold previous
    rw [if_neg (by simp [hp])]
  · have hp' : s.index + 1 < (s.elements.length : Int) := by simpa [hasNext] using hp
    have hb : s.elements.length ≠ 0 := fun h0 => by
      rw [hemp h0, h0] at hp'
      exact absurd hp' (by omega)
    obtain ⟨hi0, hi1⟩ := hne hb
    unfold next
    rw [if_pos hp]
    dsimp only
    have hcond : (0:Int) ≤ s.index + 1 ∧ s.index + 1 < (s.elements.length : Int) := by
      constructor <;> omega
    have hget : ({ s with index := s.index + 1 } : NavigationStack).getCurrent
        = s.elements.get? (s.index + 1).toNat := by
      unfold getCurrent
      rw [if_pos hcond]
    have hlt : (s.index + 1).toNat < s.elements.length := by omega
    refine ⟨rfl, rfl, rfl, hget, ?_⟩
    rw [hget, List.get?_eq_get hlt]
    rfl
  · unfold next
    rw [if_neg (by simp [hp])]

theorem c6_previous_next_semantics_witness :
    Inv ⟨[sampleA.toLocation, sampleB.toLocation], 1, 0⟩ ∧
      ((⟨[sampleA.toLocation, sampleB.toLocation], 1, 0⟩ :
          NavigationStack).previous).2.index
        = (⟨[sampleA.toLocation, sampleB.toLocation], 1, 0⟩ :
          NavigationStack).index - 1 :=
  ⟨by decide,
    ((c6_previous_next_semantics ⟨[sampleA.toLocation, sampleB.toLocation], 1, 0⟩
      (by decide)).1 (by decide)).2.1⟩

/-- C9: `editorOpened` is a no-op for a null path; otherwise it upgrades in
place exactly the uri entries matching the path, preserving their positions,
and never touches cursor, length or the notification count. -/
theorem c9_editorOpened_semantics (s : NavigationStack) (ref : Editor) :
    (ref.path = none → s.editorOpened ref = s) ∧
    (∀ uri, ref.path = some uri →
      (s.editorOpened ref).index = s.index ∧
        (s.editorOpened ref).changes = s.changes ∧
        (s.editorOpened ref).elements.length = s.elements.length ∧
        (∀ i q, s.elements.get? i = some (Location.uri uri q) →
          (s.editorOpened ref).elements.get? i = some (Location.editor ref q)) ∧
        (∀ i l, s.elements.get? i = some l → (∀ q, l ≠ Location.uri uri q) →
          (s.editorOpened ref).elements.get? i = some l)) := by
  constructor
  · intro hp
    unfold editorOpened
    rw [hp]
  · intro uri hp
    unfold editorOpened
    rw [hp]
    refine ⟨rfl, rfl, by simp, fun i q hi => ?_, fun i l hi hnl => ?_⟩
    · dsimp only
      rw [List.get?_map, hi]
      simp
    · dsimp only
      rw [List.get?_map, hi]
      cases l with
      | editor e q => rfl
      | uri u q =>
        have hu : u ≠ uri := fun h => hnl q (by rw [h])
        simp [hu]

theorem c9_editorOpened_semantics_witness :
    (⟨7, some ("a")⟩ : Editor).path = some ("a") ∧
      ((⟨[Location.uri ("a") samplePos], 0, 0⟩ :
        NavigationStack).editorOpened ⟨7, some ("a")⟩).elements.get? 0
        = some (Location.editor ⟨7, some ("a")⟩ samplePos) :=
  ⟨by decide,
    ((c9_editorOpened_semantics ⟨[Location.uri ("a") samplePos], 0, 0⟩
      ⟨7, some ("a")⟩).2 ("a") (by decide)).2.2.2.1 0 samplePos (by decide)⟩

end NavigationStack

namespace NavigationStack

def fullStack : NavigationStack :=
  ⟨List.replicate 100 sampleA.toLocation, 99, 0⟩

def sampleRef : Editor := ⟨7, some ("a")⟩

def pushAll (s : NavigationStack) (es : List EditorLocation) : NavigationStack :=
  es.foldl push s

def distinct101 : List EditorLocation :=
  (List.range 101).map fun i => ⟨⟨i, none⟩, samplePos⟩

theorem pushAll_length_le (es : List EditorLocation) :
    ∀ s : NavigationStack, s.elements.length ≤ MAX_STACK_DEPTH →
      (pushAll s es).elements.length ≤ MAX_STACK_DEPTH := by
  induction es with
  | nil => exact fun s hs => hs
  | cons e rest ih => exact fun s hs => ih (s.push e) (push_length_le s e hs)

set_option maxRecDepth 100000 in
/-- C2 as stated is false at a full stack: with 100 entries and the cursor on
the top one, `push` evicts the oldest entry besides appending, so the result
is not the prefix up to the cursor plus the new entry. -/
theorem c2_push_counterexample :
    ¬((fullStack.push sampleB).elements
      = fullStack.elements.take (fullStack.index + 1).toNat ++ [sampleB.toLocation]) := by
  decide

/-- C2 amended: `push` drops all entries strictly after the cursor, appends
the new entry and leaves the cursor at `len − 1`; but when the truncated
prefix already has `MAX_STACK_DEPTH` entries (cursor at index 99) the oldest
entry is additionally evicted.  The scenario `push A; push B; previous = A;
push C ⇒ entries [A, C], cursor 1, hasNext false` holds. -/
theorem c2_push_semantics (s : NavigationStack) (e : EditorLocation) (h : Inv s) :
    (s.push e).index = ((s.push e).elements.length : Int) - 1 ∧
      (s.index + 1 < (MAX_STACK_DEPTH : Int) →
        (s.push e).elements = s.elements.take (s.index + 1).toNat ++ [e.toLocation]) ∧
      (s.index + 1 = (MAX_STACK_DEPTH : Int) →
        (s.push e).elements
          = (s.elements.take (s.index + 1).toNat ++ [e.toLocation]).drop 1) ∧
      ((((empty.push sampleA).push sampleB).previous).1 = some sampleA.toLocation ∧
        ((((empty.push sampleA).push sampleB).previous).2.push sampleC).elements
          = [sampleA.toLocation, sampleC.toLocation] ∧
        ((((empty.push sampleA).push sampleB).previous).2.push sampleC).index = 1 ∧
        ((((empty.push sampleA).push sampleB).previous).2.push sampleC).hasNext = false) := by
  obtain ⟨hlen, hemp, hne⟩ := h
  refine ⟨push_index_eq s e, fun hc => ?_, fun hc => ?_, by decide, by decide, by decide,
    by decide⟩
  · simp only [MAX_STACK_DEPTH] at hc
    rw [push_elements_eq, if_neg (by
      simp only [List.length_append, List.length_singleton, List.length_take,
        MAX_STACK_DEPTH]
      omega)]
  · simp only [MAX_STACK_DEPTH] at hc
    have hb : s.elements.length ≠ 0 := fun h0 => by rw [hemp h0] at hc; omega
    obtain ⟨hi0, hi1⟩ := hne hb
    rw [push_elements_eq, if_pos (by
      simp only [List.length_append, List.length_singleton, List.length_take,
        MAX_STACK_DEPTH]
      omega)]

theorem c2_push_semantics_witness :
    Inv (empty.push sampleA) ∧
      ((empty.push sampleA).push sampleB).index
        = ((((empty.push sampleA).push sampleB).elements.length : Int)) - 1 :=
  ⟨by decide, (c2_push_semantics (empty.push sampleA) sampleB (by decide)).1⟩

set_option maxRecDepth 100000 in
/-- C3: any sequence of pushes keeps the depth at most 100; a push at full
depth with the cursor on the top entry evicts exactly the oldest entry; and
pushing 101 distinct entries from a fresh stack leaves 100 entries with the
first entry gone. -/
theorem c3_push_depth_bound :
    (∀ es : List EditorLocation, (pushAll empty es).elements.length ≤ MAX_STACK_DEPTH) ∧
      (∀ (s : NavigationStack) (e : EditorLocation),
        s.elements.length = MAX_STACK_DEPTH → s.index = (MAX_STACK_DEPTH : Int) - 1 →
          (s.push e).elements = s.elements.drop 1 ++ [e.toLocation] ∧
            (s.push e).elements.length = MAX_STACK_DEPTH) ∧
      (pushAll empty distinct101).elements.length = MAX_STACK_DEPTH ∧
      Location.editor ⟨0, none⟩ samplePos ∉ (pushAll empty distinct101).elements := by
  refine ⟨fun es => pushAll_length_le es empty (by decide), ?_, by decide, by decide⟩
  intro s e hslen hsidx
  simp only [MAX_STACK_DEPTH] at hslen hsidx
  have htake : s.elements.take (s.index + 1).toNat = s.elements := by
    have h100 : (s.index + 1).toNat = 100 := by omega
    rw [h100]
    exact List.take_of_length_le (by omega)
  have hcond : (s.elements.take (s.index + 1).toNat ++ [e.toLocation]).length
      > MAX_STACK_DEPTH := by
    rw [htake]
    simp only [List.length_append, List.length_singleton, MAX_STACK_DEPTH]
    omega
  constructor
  · rw [push_elements_eq, if_pos hcond, htake]
    exact List.drop_append_of_le_length (by omega)
  · rw [push_elements_eq, if_pos hcond, htake]
    simp only [List.length_drop, List.length_append, List.length_singleton,
      MAX_STACK_DEPTH]
    omega

set_option maxRecDepth 100000 in
theorem c3_push_depth_bound_witness :
    fullStack.elements.length = MAX_STACK_DEPTH ∧
      fullStack.index = (MAX_STACK_DEPTH : Int) - 1 ∧
      (fullStack.push sampleB).elements.length = MAX_STACK_DEPTH :=
  ⟨by decide, by decide,
    (c3_push_depth_bound.2.1 fullStack sampleB (by decide) (by decide)).2⟩

theorem open_close_elements (ref : Editor) (uri : String) (l : List Location)
    (hno : ∀ q : Position, Location.editor ref q ∉ l) :
    ((l.map fun x =>
        match x with
        | Location.uri u p => if u = uri then Location.editor ref p else Location.uri u p
        | x => x).map fun x =>
        match x with
        | Location.editor e p => if e = ref then Location.uri uri p else Location.editor e p
        | x => x) = l := by
  induction l with
  | nil => rfl
  | cons x rest ih =>
    simp only [List.map_cons]
    rw [ih fun q hq => hno q (List.mem_cons_of_mem x hq)]
    congr 1
    cases x with
    | editor e q =>
      have he : e ≠ ref := fun h => hno q (by rw [h]; exact List.mem_cons_self _ _)
      dsimp only
      rw [if_neg he]
    | uri u q =>
      by_cases hu : u = uri
      · dsimp only
        rw [if_pos hu]
        dsimp only
        rw [if_pos rfl, hu]
      · dsimp only
        rw [if_neg hu]

/-- C7 as stated fails when the stack already holds an open-editor entry for
the very handle being opened: the subsequent `editorClosed` downgrades that
pre-existing entry to a uri entry, so the pair of calls does not restore the
state bit-for-bit. -/
theorem c7_counterexample :
    sampleRef.path = some ("a") ∧ ("a" : String) ≠ ("") ∧
      (((⟨[Location.editor sampleRef samplePos], 0, 0⟩ :
          NavigationStack).editorOpened sampleRef).editorClosed sampleRef).elements
        ≠ (⟨[Location.editor sampleRef samplePos], 0, 0⟩ :
          NavigationStack).elements := by
  decide

/-- C7 amended: when the editor's path is non-null and non-empty and no entry
of the stack is an open-editor entry for that same handle, `editorOpened ref`
followed by `editorClosed ref` is the identity on the whole state: every
original uri entry is restored bit-for-bit with its position, and entries,
cursor, length and the notification count are exactly as before. -/
theorem c7_open_close_roundtrip (s : NavigationStack) (ref : Editor) (uri : String)
    (hpath : ref.path = some uri) (hne : uri ≠ (""))
    (hno : (s.elements.all fun l =>
      match l with
      | Location.editor e _ => decide (¬e = ref)
      | _ => true) = true) :
    (s.editorOpened ref).editorClosed ref = s := by
  have hno' : ∀ q : Position, Location.editor ref q ∉ s.elements := by
    intro q hq
    have := List.all_eq_true.mp hno _ hq
    simp at this
  unfold editorOpened editorClosed
  rw [hpath]
  dsimp only
  rw [if_neg hne]
  rw [open_close_elements ref uri s.elements hno']

theorem c7_open_close_roundtrip_witness :
    sampleRef.path = some ("a") ∧
      (((⟨[Location.uri ("a") ⟨1, 0⟩, Location.uri ("b") ⟨2, 0⟩, sampleA.toLocation], 1, 3⟩ :
          NavigationStack).editorOpened sampleRef).editorClosed sampleRef)
        = ⟨[Location.uri ("a") ⟨1, 0⟩, Location.uri ("b") ⟨2, 0⟩, sampleA.toLocation], 1, 3⟩ :=
  ⟨by decide,
    c7_open_close_roundtrip
      ⟨[Location.uri ("a") ⟨1, 0⟩, Location.uri ("b") ⟨2, 0⟩, sampleA.toLocation], 1, 3⟩
      sampleRef ("a") (by decide) (by decide) (by decide)⟩

end NavigationStack
